import Mathlib

/-!
Verification development for the `cropconnect` AI-Mitra backend
(`ai_mitra/app/services/*.py`).

Conventions of the shallow embedding:
* Python floats are modelled as exact rationals (`ℚ`); the real-valued
  cosine similarity is interpreted in `ℝ` via `Real.sqrt`.
* Python lists become `List`, dicts with a fixed key set become structures,
  `None` becomes `Option`.
* Stateful methods become pure functions that take and return the state.
* Third-party library behaviour (the JSON parser, the `langdetect`
  detector, the HTTP transport) is passed in as an explicit parameter or
  input value; everything else is translated from the source.
-/

namespace CropConnect

/-! ### Navigation service (`navigation_service.py`)

`NavigationService._extract_keywords` builds, per route, a deduplicated
keyword list (union of `intent_keywords` and `user_needs`) and a
route → context map; `suggest_navigations` scores each route against the
message and the extracted tags. -/

/-- One entry of the `navigation_contexts` list of `app_context.json`
(see spec §6); `title`, `description` and `sample_questions` are carried
but unused by the scoring code. -/
structure NavContext where
  route : String
  title : String
  description : String
  intent_keywords : List String
  user_needs : List String
  sample_questions : List String
deriving DecidableEq

/-- The tags dictionary extracted from the LLM reply, with the key set the
code reads (`crops`, `city`, `topics`, `issues`, `seasons`).  A missing key
and an empty value behave identically in every `get`/truthiness test of the
source, so both are modelled by the empty value. -/
structure Tags where
  crops : List String
  city : Option String
  topics : List String
  issues : List String
  seasons : List String
deriving DecidableEq

/-- Python truthiness of `extracted_entities["city"]`: `None` and the empty
string are falsy. -/
def cityTruthy : Option String → Bool
  | none => false
  | some s => s ≠ ""

/-- ASCII letter test, `[a-zA-Z]` of the regexes. -/
def isAsciiLetter (c : Char) : Bool :=
  ('a' ≤ c && c ≤ 'z') || ('A' ≤ c && c ≤ 'Z')

/-- Python `\w` word character (ASCII fragment `[a-zA-Z0-9_]`; the unicode
extension of `\w` is irrelevant to the ASCII keywords the scoring uses). -/
def isWordChar (c : Char) : Bool :=
  isAsciiLetter c || c.isDigit || c = '_'

/-- Left/right side of a `\b` word boundary: the neighbouring position is
the string edge or a non-word character. -/
def boundaryOk : Option Char → Bool
  | none => true
  | some c => !isWordChar c

/-- Scan for the regex search of the escaped keyword between two word
boundaries in the message: some
occurrence of `kw` in `msg` flanked by word boundaries.  `prev` is the
character just before the current position. -/
def wordMatchAux (kw : List Char) (prev : Option Char) : List Char → Bool
  | [] => boundaryOk prev && kw = []
  | c :: rest =>
    (boundaryOk prev && kw.isPrefixOf (c :: rest) &&
      boundaryOk ((c :: rest).drop kw.length).head?) ||
    wordMatchAux kw (some c) rest

/-- Whole-word, case-already-lowered keyword match used at
`navigation_service.py:51`. -/
def wordMatch (kw msg : List Char) : Bool :=
  wordMatchAux kw none msg

/-- The Python `str.lower`, restricted to the ASCII case mapping. -/
def lowerStr (s : String) : String :=
  String.mk (s.toList.map Char.toLower)

/-- Boolean contiguous-sublist test over character lists. -/
def listInfixOf (needle : List Char) : List Char → Bool
  | [] => needle.isEmpty
  | c :: rest => needle.isPrefixOf (c :: rest) || listInfixOf needle rest

/-- Python `needle in hay` on strings (substring test). -/
def strContains (hay needle : String) : Bool :=
  listInfixOf needle.toList hay.toList

/-- Score of one route, `navigation_service.py:46-91`.  `keywords` is the
deduplicated union of the route `intent_keywords` and `user_needs`. -/
def routeScore (route : String) (keywords : List String)
    (message : String) (tags : Tags) : ℕ :=
  let msgL := lowerStr message
  (2 * keywords.countP (fun kw => wordMatch (lowerStr kw).toList msgL.toList))
  + (if tags.crops ≠ [] ∧ route ∈ ["/resource-pool", "/podcasts", "/chatbot"]
      then 3 else 0)
  + (if cityTruthy tags.city ∧ route ∈ ["/search-cooperatives", "/nearby-cooperatives"]
      then 3 else 0)
  + (if route = "/podcasts" ∧ (strContains msgL "learn" ∨ strContains msgL "information"
        ∨ tags.topics.any
            (· ∈ ["cultivation", "farming techniques", "agricultural education"]))
      then 3 else 0)
  + (if route = "/resource-pool" ∧ (strContains msgL "equipment" ∨ strContains msgL "tools")
      then 2 else 0)
  + (if route = "/chatbot" ∧
        ((["help", "advice", "problem", "issue"].any (strContains msgL ·)) ∨ tags.issues ≠ [])
      then 4 else 0)
  + (if route = "/community" ∧ (["discuss", "talk", "other farmers"].any (strContains msgL ·))
      then 2 else 0)
  + (if tags.crops ≠ [] ∧ route = "/chatbot" then 3 else 0)
  + (if tags.issues ≠ [] ∧ route = "/community" then 2 else 0)

/-- The effect of filling the `context_keywords`/`navigation_by_route`
dicts (`_extract_keywords`): contexts with a falsy route are skipped, and a
repeated route keeps its first position but the latest context value. -/
def dedupContexts (ctxs : List NavContext) : List NavContext :=
  ctxs.foldl
    (fun acc c =>
      if c.route = "" then acc
      else if acc.any (·.route = c.route) then
        acc.map (fun a => if a.route = c.route then c else a)
      else acc ++ [c])
    []

/-- Deduplicated keyword list of a context (`list(set(keywords))`; the
arbitrary set order is irrelevant because only the count of matching
distinct keywords enters the score). -/
def contextKeywords (c : NavContext) : List String :=
  (c.intent_keywords ++ c.user_needs).dedup

/-- Translation of `NavigationService.suggest_navigations`
(`navigation_service.py:39-105`):
score every route, sort by score descending (the Python `sorted` is stable),
keep strictly positive scores, take the first 3, append `"/chatbot"` when
missing and the list is non-empty, and fall back to the fixed default list
when nothing scored. -/
def suggestNavigations (ctxs : List NavContext) (message : String) (tags : Tags) :
    List String :=
  let scored := (dedupContexts ctxs).map
    (fun c => (c.route, routeScore c.route (contextKeywords c) message tags))
  let sorted := List.insertionSort (fun a b => b.2 ≤ a.2) scored
  let suggestions := ((sorted.filter (fun p => 0 < p.2)).map Prod.fst).take 3
  let suggestions :=
    if "/chatbot" ∉ suggestions ∧ suggestions ≠ []
      then suggestions ++ ["/chatbot"] else suggestions
  if suggestions = [] then ["/chatbot", "/podcasts", "/community"] else suggestions

/-- Modelled from the spec: the repository data file `app/data/app_context.json`
data file (the `navigation_contexts` it declares) is not included under
`src/`; spec §4.4 and §6 name exactly these six routes.  The per-route
keyword lists are not given by the spec and are left empty — the hard-coded
scoring rules of `suggest_navigations` do not depend on them. -/
def specNavigationContexts : List NavContext :=
  [⟨"/chatbot", "", "", [], [], []⟩,
   ⟨"/search-cooperatives", "", "", [], [], []⟩,
   ⟨"/nearby-cooperatives", "", "", [], [], []⟩,
   ⟨"/resource-pool", "", "", [], [], []⟩,
   ⟨"/podcasts", "", "", [], [], []⟩,
   ⟨"/community", "", "", [], [], []⟩]

/-- The all-empty tags value. -/
def emptyTags : Tags := ⟨[], none, [], [], []⟩

theorem suggest_le_four_aux (base : List String) :
    (if (if "/chatbot" ∉ base.take 3 ∧ base.take 3 ≠ []
          then base.take 3 ++ ["/chatbot"] else base.take 3) = []
      then ["/chatbot", "/podcasts", "/community"]
      else (if "/chatbot" ∉ base.take 3 ∧ base.take 3 ≠ []
          then base.take 3 ++ ["/chatbot"] else base.take 3)).length ≤ 4 := by
  have h3 : (base.take 3).length ≤ 3 := by
    rw [List.length_take]
    exact min_le_left _ _
  by_cases hc : "/chatbot" ∉ base.take 3 ∧ base.take 3 ≠ []
  · rw [if_pos hc]
    split
    · simp
    · rw [List.length_append]
      simp only [List.length_cons, List.length_nil]
      omega
  · rw [if_neg hc]
    split
    · simp
    · omega

/-- C1 (amended): for every loaded context list, message and tags,
`suggest_navigations` returns an ordered list of at most 4 route strings:
at most 3 come from scoring, and `"/chatbot"` may be appended afterwards
without re-truncation (the fixed default list has 3 entries). -/
theorem c1_suggest_navigations_length_le_four
    (ctxs : List NavContext) (message : String) (tags : Tags) :
    (suggestNavigations ctxs message tags).length ≤ 4 :=
  suggest_le_four_aux _

/-- C1 counterexample: with the six routes of the app context of the spec, the
message "equipment discuss learn" scores `/podcasts`, `/resource-pool` and
`/community` positively, `/chatbot` scores 0 and is appended afterwards, so
the returned list has 4 elements — not at most 3 as claimed. -/
theorem c1_counterexample :
    suggestNavigations specNavigationContexts "equipment discuss learn" emptyTags
      = ["/podcasts", "/resource-pool", "/community", "/chatbot"] ∧
    (suggestNavigations specNavigationContexts "equipment discuss learn" emptyTags).length
      = 4 := by
  constructor <;> rfl

theorem suggest_contains_chatbot_aux (base : List String) :
    (if (if "/chatbot" ∉ base.take 3 ∧ base.take 3 ≠ []
          then base.take 3 ++ ["/chatbot"] else base.take 3) = []
      then ["/chatbot", "/podcasts", "/community"]
      else (if "/chatbot" ∉ base.take 3 ∧ base.take 3 ≠ []
          then base.take 3 ++ ["/chatbot"] else base.take 3)) ≠ [] ∧
    "/chatbot" ∈
      (if (if "/chatbot" ∉ base.take 3 ∧ base.take 3 ≠ []
          then base.take 3 ++ ["/chatbot"] else base.take 3) = []
        then ["/chatbot", "/podcasts", "/community"]
        else (if "/chatbot" ∉ base.take 3 ∧ base.take 3 ≠ []
          then base.take 3 ++ ["/chatbot"] else base.take 3)) := by
  by_cases hc : "/chatbot" ∉ base.take 3 ∧ base.take 3 ≠ []
  · rw [if_pos hc]
    have hne : base.take 3 ++ ["/chatbot"] ≠ [] := by simp
    rw [if_neg hne]
    exact ⟨hne, List.mem_append_right _ (List.mem_singleton.mpr rfl)⟩
  · rw [if_neg hc]
    by_cases he : base.take 3 = []
    · rw [if_pos he]
      exact ⟨by simp, by simp⟩
    · rw [if_neg he]
      refine ⟨he, ?_⟩
      rcases not_and_or.mp hc with h | h
      · exact not_not.mp h
      · exact absurd (not_not.mp h) he

/-- C10: for every loaded context list, message and tags, the list returned
by `suggest_navigations` is non-empty and contains the route `"/chatbot"` —
either it survived scoring, or it was appended to a non-empty suggestion
list, or the default fallback list was returned. -/
theorem c10_suggest_navigations_contains_chatbot
    (ctxs : List NavContext) (message : String) (tags : Tags) :
    suggestNavigations ctxs message tags ≠ [] ∧
    "/chatbot" ∈ suggestNavigations ctxs message tags :=
  suggest_contains_chatbot_aux _

/-! ### Chat history (`chatbot_service.py`)

`ChatbotService._add_to_chat_history` appends a
`{role, content, timestamp}` record to `chat_memory[user_id]` and, when the
list then exceeds 10 entries, keeps only `[-10:]` — the last 10.  The model
works on the list of one user; `chat_memory` keys are independent. -/

/-- One chat-history entry (`ChatTurn` of spec §3).  The timestamp string
`datetime.now().isoformat()` is taken as an input. -/
structure ChatTurn where
  role : String
  content : String
  timestamp : String
deriving DecidableEq

/-- Effect of `_add_to_chat_history` on the list of one user
(`chatbot_service.py:64-77`). -/
def addToChatHistory (h : List ChatTurn) (t : ChatTurn) : List ChatTurn :=
  let h2 := h ++ [t]
  if 10 < h2.length then h2.drop (h2.length - 10) else h2

theorem addToChatHistory_length_le (h : List ChatTurn) (t : ChatTurn) :
    (addToChatHistory h t).length ≤ 10 := by
  unfold addToChatHistory
  by_cases hlen : 10 < (h ++ [t]).length
  · rw [if_pos hlen, List.length_drop]
    omega
  · rw [if_neg hlen]
    omega

theorem foldl_addToChatHistory (ts : List ChatTurn) :
    List.foldl addToChatHistory [] ts = ts.drop (ts.length - 10) := by
  induction ts using List.reverseRecOn with
  | nil => rfl
  | append_singleton ts t ih =>
    rw [List.foldl_append, List.foldl_cons, List.foldl_nil, ih]
    by_cases hlen : ts.length ≤ 9
    · have h0 : ts.length - 10 = 0 := by omega
      have h0' : (ts ++ [t]).length - 10 = 0 := by
        rw [List.length_append]
        simp only [List.length_cons, List.length_nil]
        omega
      rw [h0, h0', List.drop_zero, List.drop_zero]
      unfold addToChatHistory
      rw [if_neg]
      rw [List.length_append]
      simp only [List.length_cons, List.length_nil]
      omega
    · have h10 : 10 ≤ ts.length := by omega
      have hslen : (ts.drop (ts.length - 10)).length = 10 := by
        rw [List.length_drop]
        omega
      unfold addToChatHistory
      rw [if_pos (by rw [List.length_append, hslen]; simp)]
      rw [List.length_append, hslen]
      simp only [List.length_cons, List.length_nil]
      rw [show (10 : ℕ) + 1 - 10 = 1 from rfl]
      rw [List.drop_append_eq_append_drop, List.drop_drop]
      have h1 : 1 - (ts.drop (ts.length - 10)).length = 0 := by omega
      rw [hslen] at h1 ⊢
      rw [h1, List.drop_zero]
      rw [List.drop_append_eq_append_drop]
      have h2 : (ts ++ [t]).length - 10 = ts.length - 9 := by
        rw [List.length_append]
        simp only [List.length_cons, List.length_nil]
        omega
      rw [h2]
      have h3 : ts.length - 9 - ts.length = 0 := by omega
      rw [h3, List.drop_zero]
      have h4 : ts.length - 10 + 1 = ts.length - 9 := by omega
      rw [h4]

/-- C7: each history append caps the stored list at 10 entries, and after
12 appends (6 user+assistant turn pairs) starting from an empty history the
stored list is exactly the most recent 10 entries in their original
order — FIFO eviction of the 2 oldest. -/
theorem c7_chat_history_cap_and_fifo (h : List ChatTurn) (t : ChatTurn)
    (ts : List ChatTurn) (hts : ts.length = 12) :
    (addToChatHistory h t).length ≤ 10 ∧
    List.foldl addToChatHistory [] ts = ts.drop 2 ∧
    (List.foldl addToChatHistory [] ts).length = 10 := by
  refine ⟨addToChatHistory_length_le h t, ?_, ?_⟩
  · rw [foldl_addToChatHistory, hts]
  · rw [foldl_addToChatHistory, List.length_drop, hts]

/-- C7 witness: 12 concrete turns (6 user+assistant pairs); the stored
history is the last 10 in order. -/
theorem c7_witness :
    ([⟨"user", "m1", "t1"⟩, ⟨"assistant", "r1", "t2"⟩, ⟨"user", "m2", "t3"⟩,
      ⟨"assistant", "r2", "t4"⟩, ⟨"user", "m3", "t5"⟩, ⟨"assistant", "r3", "t6"⟩,
      ⟨"user", "m4", "t7"⟩, ⟨"assistant", "r4", "t8"⟩, ⟨"user", "m5", "t9"⟩,
      ⟨"assistant", "r5", "t10"⟩, ⟨"user", "m6", "t11"⟩,
      ⟨"assistant", "r6", "t12"⟩] : List ChatTurn).length = 12 ∧
    ((addToChatHistory [] ⟨"user", "m1", "t1"⟩).length ≤ 10 ∧
      List.foldl addToChatHistory []
        [⟨"user", "m1", "t1"⟩, ⟨"assistant", "r1", "t2"⟩, ⟨"user", "m2", "t3"⟩,
         ⟨"assistant", "r2", "t4"⟩, ⟨"user", "m3", "t5"⟩, ⟨"assistant", "r3", "t6"⟩,
         ⟨"user", "m4", "t7"⟩, ⟨"assistant", "r4", "t8"⟩, ⟨"user", "m5", "t9"⟩,
         ⟨"assistant", "r5", "t10"⟩, ⟨"user", "m6", "t11"⟩, ⟨"assistant", "r6", "t12"⟩]
        = List.drop 2
            [⟨"user", "m1", "t1"⟩, ⟨"assistant", "r1", "t2"⟩, ⟨"user", "m2", "t3"⟩,
             ⟨"assistant", "r2", "t4"⟩, ⟨"user", "m3", "t5"⟩, ⟨"assistant", "r3", "t6"⟩,
             ⟨"user", "m4", "t7"⟩, ⟨"assistant", "r4", "t8"⟩, ⟨"user", "m5", "t9"⟩,
             ⟨"assistant", "r5", "t10"⟩, ⟨"user", "m6", "t11"⟩,
             ⟨"assistant", "r6", "t12"⟩] ∧
      (List.foldl addToChatHistory []
        [⟨"user", "m1", "t1"⟩, ⟨"assistant", "r1", "t2"⟩, ⟨"user", "m2", "t3"⟩,
         ⟨"assistant", "r2", "t4"⟩, ⟨"user", "m3", "t5"⟩, ⟨"assistant", "r3", "t6"⟩,
         ⟨"user", "m4", "t7"⟩, ⟨"assistant", "r4", "t8"⟩, ⟨"user", "m5", "t9"⟩,
         ⟨"assistant", "r5", "t10"⟩, ⟨"user", "m6", "t11"⟩, ⟨"assistant", "r6", "t12"⟩]).length
        = 10) :=
  ⟨rfl, c7_chat_history_cap_and_fifo [] ⟨"user", "m1", "t1"⟩ _ rfl⟩

/-! ### LLM client (`claude_service.py`)

`ClaudeService.generate_farming_response` makes one HTTP call inside a
broad `try/except`.  The external pieces are inputs of the model: the
upstream outcome (a transport failure, or a response with a status code and
the extracted content text) and the JSON parser (`json.loads`), passed in
as a function so the model covers all parser behaviours. -/

/-- Python/JSON values as far as the service inspects them. -/
inductive PyJson where
  | null
  | bool (b : Bool)
  | num (q : ℚ)
  | str (s : String)
  | arr (xs : List PyJson)
  | obj (fields : List (String × PyJson))

/-- Translation of `ClaudeService._default_tags`
(`claude_service.py:131-139`): all-empty
tag lists and a null city. -/
def defaultTags : PyJson :=
  .obj [("crops", .arr []), ("city", .null), ("topics", .arr []),
        ("issues", .arr []), ("seasons", .arr [])]

/-- Outcome of the `httpx` POST as the service observes it: either the
`except` branch fires (any transport/decoding exception, carrying
`str(e)`), or a response arrived with a status code and the text extracted
from the first content item of the response body (absent when the content check
fails, in which case `response_text` stays `""`). -/
inductive UpstreamOutcome where
  | transportError (msg : String)
  | response (statusCode : ℕ) (contentText : Option String)

/-- Shape check of `claude_service.py:64`: the parsed reply must be a dict
containing both a `"message"` and a `"tags"` key. -/
def hasExpectedShape : PyJson → Bool
  | .obj fields => (fields.lookup "message").isSome && (fields.lookup "tags").isSome
  | _ => false

/-- The `status_code == 200` branch of `generate_farming_response`
(`claude_service.py:52-71`): try `json.loads` on the extracted text, keep
`(message, tags)` when the expected dict shape is present, otherwise return
the raw text with default tags. -/
def handleReplyText (parseJson : String → Option PyJson) (text : String) :
    PyJson × PyJson :=
  match parseJson text with
  | some (.obj fields) =>
      match fields.lookup "message", fields.lookup "tags" with
      | some msg, some tags => (msg, tags)
      | some _, none => (.str text, defaultTags)
      | none, _ => (.str text, defaultTags)
  | some _ => (.str text, defaultTags)
  | none => (.str text, defaultTags)

/-- Translation of `ClaudeService.generate_farming_response`
(`claude_service.py:39-76`)
as a pure function of the upstream outcome.  `parseJson` is the model of
`json.loads` (`none` = `JSONDecodeError`). -/
def generateFarmingResponse (parseJson : String → Option PyJson)
    (up : UpstreamOutcome) : PyJson × PyJson :=
  match up with
  | .transportError e =>
      (.str ("Error communicating with Claude API: " ++ e), defaultTags)
  | .response code contentText =>
      if code ≠ 200 then (.str ("API Error: " ++ toString code), defaultTags)
      else handleReplyText parseJson (contentText.getD "")

theorem generateFarmingResponse_response (parseJson : String → Option PyJson)
    (code : ℕ) (contentText : Option String) :
    generateFarmingResponse parseJson (.response code contentText)
      = if code ≠ 200 then (.str ("API Error: " ++ toString code), defaultTags)
        else handleReplyText parseJson (contentText.getD "") := rfl

/-- C8: `generate_farming_response` is total over all upstream outcomes
(nothing escapes the `try/except`), a transport failure or a non-200 status
yields a human-readable error string with the default all-empty tags, and a
reply that does not parse as the expected `{message, tags}` JSON shape
yields the raw reply text verbatim with the default tags. -/
theorem c8_generate_farming_response_degrades
    (parseJson : String → Option PyJson) (e : String) (code : ℕ)
    (contentText : Option String) (hcode : code ≠ 200) :
    generateFarmingResponse parseJson (.transportError e)
      = (.str ("Error communicating with Claude API: " ++ e), defaultTags) ∧
    generateFarmingResponse parseJson (.response code contentText)
      = (.str ("API Error: " ++ toString code), defaultTags) ∧
    (∀ contentText' : Option String,
      parseJson (contentText'.getD "") = none →
      generateFarmingResponse parseJson (.response 200 contentText')
        = (.str (contentText'.getD ""), defaultTags)) ∧
    (∀ (contentText' : Option String) (j : PyJson),
      parseJson (contentText'.getD "") = some j →
      hasExpectedShape j = false →
      generateFarmingResponse parseJson (.response 200 contentText')
        = (.str (contentText'.getD ""), defaultTags)) ∧
    defaultTags = .obj [("crops", .arr []), ("city", .null), ("topics", .arr []),
        ("issues", .arr []), ("seasons", .arr [])] := by
  refine ⟨rfl, ?_, ?_, ?_, rfl⟩
  · rw [generateFarmingResponse_response, if_pos hcode]
  · intro ct hparse
    rw [generateFarmingResponse_response, if_neg (by simp)]
    unfold handleReplyText
    rw [hparse]
  · intro ct j hparse hshape
    rw [generateFarmingResponse_response, if_neg (by simp)]
    unfold handleReplyText
    rw [hparse]
    match j, hshape with
    | .null, _ => rfl
    | .bool b, _ => rfl
    | .num q, _ => rfl
    | .str s, _ => rfl
    | .arr xs, _ => rfl
    | .obj fields, hshape => ?_
    simp only [hasExpectedShape, Bool.and_eq_false_iff] at hshape
    rcases h1 : fields.lookup "message" with _ | msg
    · simp [h1]
    · rcases h2 : fields.lookup "tags" with _ | tags
      · simp [h1, h2]
      · rw [h1, h2] at hshape
        simp at hshape

/-- C8 witness: a 500 status, an unparseable reply and a wrongly-shaped
reply all degrade to the documented message/default-tags pairs. -/
theorem c8_witness :
    (500 : ℕ) ≠ 200 ∧
    (generateFarmingResponse (fun _ => none) (.transportError "boom")
      = (.str "Error communicating with Claude API: boom", defaultTags) ∧
    generateFarmingResponse (fun _ => none) (.response 500 (some "hi"))
      = (.str "API Error: 500", defaultTags) ∧
    (∀ contentText' : Option String,
      (fun (_ : String) => (none : Option PyJson)) (contentText'.getD "") = none →
      generateFarmingResponse (fun _ => none) (.response 200 contentText')
        = (.str (contentText'.getD ""), defaultTags)) ∧
    (∀ (contentText' : Option String) (j : PyJson),
      (fun (_ : String) => (none : Option PyJson)) (contentText'.getD "") = some j →
      hasExpectedShape j = false →
      generateFarmingResponse (fun _ => none) (.response 200 contentText')
        = (.str (contentText'.getD ""), defaultTags)) ∧
    defaultTags = .obj [("crops", .arr []), ("city", .null), ("topics", .arr []),
        ("issues", .arr []), ("seasons", .arr [])]) :=
  ⟨by decide,
   c8_generate_farming_response_degrades (fun _ => none) "boom" 500 (some "hi")
     (by decide)⟩

/-! ### Language detection (`language_service.py`)

`LanguageService._extract_explicit_language` applies the case-insensitive
anchored regex `^in\s+([a-zA-Z]+)[\s:-]` and resolves the captured word
against `SUPPORTED_LANGUAGES` (exact code, then substring of a display
name, in dict insertion order); `clean_language_prefix` substitutes
`^in\s+([a-zA-Z]+)[\s:-]\s*` with the empty string.  The Python `\s` class
is modelled by its ASCII fragment and `str.lower` by the ASCII case map —
the captured group is `[a-zA-Z]+`, so no wider characters reach either. -/

/-- ASCII fragment of the regex class `\s`. -/
def pyIsSpace (c : Char) : Bool :=
  c = ' ' || c = '\t' || c = '\n' || c = '\r' || c = '\x0b' || c = '\x0c'

/-- The single-character class `[\s:-]` that must follow the language
word. -/
def isSepChar (c : Char) : Bool := pyIsSpace c || c = ':' || c = '-'

/-- Matching of `^in\s+([a-zA-Z]+)[\s:-]` (case-insensitive) against a
character list; returns the captured group and the characters after the
separator.  Greedy matching without backtracking is faithful here: the
three sub-patterns draw from disjoint character classes. -/
def matchLangPrefix : List Char → Option (List Char × List Char)
  | c1 :: c2 :: rest =>
    if (c1 = 'i' ∨ c1 = 'I') ∧ (c2 = 'n' ∨ c2 = 'N') then
      if rest.takeWhile pyIsSpace = [] then none
      else if (rest.dropWhile pyIsSpace).takeWhile isAsciiLetter = [] then none
      else
        match (rest.dropWhile pyIsSpace).dropWhile isAsciiLetter with
        | [] => none
        | sChar :: rest2 =>
          if isSepChar sChar then
            some ((rest.dropWhile pyIsSpace).takeWhile isAsciiLetter, rest2)
          else none
    else none
  | _ => none

/-- The `SUPPORTED_LANGUAGES` dict of `config.py:30-37`, in insertion order. -/
def supportedLanguages : List (String × String) :=
  [("en", "English"), ("hi", "Hindi"), ("pa", "Punjabi"), ("ta", "Tamil"),
   ("te", "Telugu"), ("mr", "Marathi")]

/-- The `DEFAULT_LANGUAGE` of `config.py:40`. -/
def defaultLanguage : String := "en"

/-- Membership test of a code in `SUPPORTED_LANGUAGES`. -/
def isSupportedCode (code : String) : Bool :=
  supportedLanguages.any (fun p => p.1 = code)

/-- Resolution of the captured (lowered) word
(`language_service.py:45-56`): an exact code match wins, otherwise the
first display name containing the word as a substring. -/
def lookupLangName (langName : String) : Option String :=
  if isSupportedCode langName then some langName
  else (supportedLanguages.find?
    (fun p => listInfixOf langName.toList (lowerStr p.2).toList)).map Prod.fst

/-- Translation of `LanguageService._extract_explicit_language`
(`language_service.py:37-56`). -/
def extractExplicitLanguage (text : String) : Option String :=
  match matchLangPrefix text.toList with
  | none => none
  | some (w, _) => lookupLangName (String.mk (w.map Char.toLower))

/-- The mapping `language_service.py:20-33` applies to the `langdetect`
output: keep a supported code, truncate a region-qualified code at the
first `-`, remap `"ur"` to `"hi"`, otherwise the default language. -/
def mapDetected (detected : String) : String :=
  if isSupportedCode detected then detected
  else
    match (if detected.toList.contains '-' then
        (if isSupportedCode (String.mk (detected.toList.takeWhile (· ≠ '-')))
          then some (String.mk (detected.toList.takeWhile (· ≠ '-'))) else none)
      else none) with
    | some base => base
    | none =>
        if detected = "ur" && isSupportedCode "hi" then "hi" else defaultLanguage

/-- Translation of `LanguageService.detect_language`
(`language_service.py:10-35`).
`langdetect` (the third-party statistical detector) is an input;
`none` models `LangDetectException`. -/
def detectLanguage (langdetect : String → Option String) (text : String) : String :=
  match extractExplicitLanguage text with
  | some c => c
  | none =>
      match langdetect text with
      | none => defaultLanguage
      | some detected => mapDetected detected

/-- Translation of `LanguageService.clean_language_prefix`
(`language_service.py:58-62`):
remove the matched prefix together with the trailing `\s*`. -/
def cleanLanguagePrefix (text : String) : String :=
  match matchLangPrefix text.toList with
  | none => text
  | some (_, rest) => String.mk (rest.dropWhile pyIsSpace)

theorem takeWhile_append_of_all {α : Type} {p : α → Bool} :
    ∀ (xs ys : List α), (∀ x ∈ xs, p x = true) →
      (xs ++ ys).takeWhile p = xs ++ ys.takeWhile p
  | [], _, _ => rfl
  | x :: xs, ys, h => by
    rw [List.cons_append, List.takeWhile_cons, if_pos (h x (List.mem_cons_self x xs)),
      takeWhile_append_of_all xs ys (fun a ha => h a (List.mem_cons_of_mem x ha)),
      List.cons_append]

theorem dropWhile_append_of_all {α : Type} {p : α → Bool} :
    ∀ (xs ys : List α), (∀ x ∈ xs, p x = true) →
      (xs ++ ys).dropWhile p = ys.dropWhile p
  | [], _, _ => rfl
  | x :: xs, ys, h => by
    rw [List.cons_append, List.dropWhile_cons, if_pos (h x (List.mem_cons_self x xs)),
      dropWhile_append_of_all xs ys (fun a ha => h a (List.mem_cons_of_mem x ha))]

theorem pyIsSpace_eq_false_of_letter {c : Char} (h : isAsciiLetter c = true) :
    pyIsSpace c = false := by
  have hA : 'A' ≤ c := by
    simp only [isAsciiLetter, Bool.or_eq_true, Bool.and_eq_true,
      decide_eq_true_eq] at h
    rcases h with ⟨h1, _⟩ | ⟨h1, _⟩
    · exact le_trans (by decide) h1
    · exact h1
  simp only [pyIsSpace, Bool.or_eq_false_iff, decide_eq_false_iff_not]
  refine ⟨⟨⟨⟨⟨?_, ?_⟩, ?_⟩, ?_⟩, ?_⟩, ?_⟩ <;>
    (rintro rfl; revert hA; decide)

theorem isAsciiLetter_eq_false_of_sep {c : Char} (h : isSepChar c = true) :
    isAsciiLetter c = false := by
  simp only [isSepChar, pyIsSpace, Bool.or_eq_true, decide_eq_true_eq] at h
  rcases h with ((((((rfl | rfl) | rfl) | rfl) | rfl) | rfl) | rfl) | rfl <;> decide

theorem matchLangPrefix_spec (i n : Char) (sp w : List Char) (s : Char)
    (rest : List Char) (hi : i = 'i' ∨ i = 'I') (hn : n = 'n' ∨ n = 'N')
    (hsp : sp ≠ []) (hsp' : ∀ c ∈ sp, pyIsSpace c = true)
    (hw : w ≠ []) (hw' : ∀ c ∈ w, isAsciiLetter c = true)
    (hs : isSepChar s = true) :
    matchLangPrefix (i :: n :: (sp ++ (w ++ s :: rest))) = some (w, rest) := by
  obtain ⟨wh, wt, rfl⟩ : ∃ wh wt, w = wh :: wt := by
    cases w with
    | nil => exact absurd rfl hw
    | cons wh wt => exact ⟨wh, wt, rfl⟩
  have hwh : pyIsSpace wh = false :=
    pyIsSpace_eq_false_of_letter (hw' wh (List.mem_cons_self wh wt))
  have hsl : isAsciiLetter s = false := isAsciiLetter_eq_false_of_sep hs
  have hTW : (sp ++ ((wh :: wt) ++ s :: rest)).takeWhile pyIsSpace = sp := by
    rw [takeWhile_append_of_all sp _ hsp', List.cons_append, List.takeWhile_cons,
      if_neg (by simp [hwh]), List.append_nil]
  have hDW : (sp ++ ((wh :: wt) ++ s :: rest)).dropWhile pyIsSpace
      = (wh :: wt) ++ s :: rest := by
    rw [dropWhile_append_of_all sp _ hsp', List.cons_append, List.dropWhile_cons,
      if_neg (by simp [hwh])]
  have hTW2 : ((wh :: wt) ++ s :: rest).takeWhile isAsciiLetter = wh :: wt := by
    rw [takeWhile_append_of_all _ _ hw', List.takeWhile_cons,
      if_neg (by simp [hsl]), List.append_nil]
  have hDW2 : ((wh :: wt) ++ s :: rest).dropWhile isAsciiLetter = s :: rest := by
    rw [dropWhile_append_of_all _ _ hw', List.dropWhile_cons,
      if_neg (by simp [hsl])]
  show matchLangPrefix (i :: n :: (sp ++ ((wh :: wt) ++ s :: rest))) = _
  simp only [matchLangPrefix]
  rw [if_pos ⟨hi, hn⟩, hTW, if_neg hsp, hDW, hTW2, hDW2, if_neg (by simp)]
  show (if isSepChar s = true then some (wh :: wt, rest) else none)
    = some (wh :: wt, rest)
  exact if_pos hs

theorem detectLanguage_of_explicit (langdetect : String → Option String)
    (text : String) (c : String) (h : extractExplicitLanguage text = some c) :
    detectLanguage langdetect text = c := by
  unfold detectLanguage
  rw [h]

/-- C9: a text that begins with a case-insensitive `in <language>` prefix
terminated by whitespace, `:` or `-`, where the lowered language word
resolves (by code or by display-name substring) to a supported code, is
detected as that code — regardless of what the statistical detector would
say — and `clean_language_prefix` removes the prefix together with the
whitespace after the separator; in particular the Hindi example of the spec
detects as `"hi"` and cleans to the bare Hindi text. -/
theorem c9_explicit_language_marker (langdetect : String → Option String)
    (i n : Char) (sp w : List Char) (s : Char) (rest : List Char) (code : String)
    (hi : i = 'i' ∨ i = 'I') (hn : n = 'n' ∨ n = 'N')
    (hsp : sp ≠ []) (hsp' : ∀ c ∈ sp, pyIsSpace c = true)
    (hw : w ≠ []) (hw' : ∀ c ∈ w, isAsciiLetter c = true)
    (hs : isSepChar s = true)
    (hcode : lookupLangName (String.mk (w.map Char.toLower)) = some code) :
    detectLanguage langdetect (String.mk (i :: n :: (sp ++ (w ++ s :: rest)))) = code ∧
    cleanLanguagePrefix (String.mk (i :: n :: (sp ++ (w ++ s :: rest))))
      = String.mk (rest.dropWhile pyIsSpace) ∧
    detectLanguage langdetect "in Hindi: मैं फसल उगाना चाहता हूं" = "hi" ∧
    cleanLanguagePrefix "in Hindi: मैं फसल उगाना चाहता हूं"
      = "मैं फसल उगाना चाहता हूं" := by
  have hmatch : matchLangPrefix (String.mk (i :: n :: (sp ++ (w ++ s :: rest)))).toList
      = some (w, rest) :=
    matchLangPrefix_spec i n sp w s rest hi hn hsp hsp' hw hw' hs
  refine ⟨?_, ?_, ?_, ?_⟩
  · refine detectLanguage_of_explicit _ _ _ ?_
    unfold extractExplicitLanguage
    rw [hmatch]
    exact hcode
  · unfold cleanLanguagePrefix
    rw [hmatch]
  · refine detectLanguage_of_explicit _ _ _ ?_
    rfl
  · rfl

/-- C9 witness: the general part applied to the literal prefix
`"in Hindi: "` followed by the Hindi sentence. -/
theorem c9_witness :
    (('i' : Char) = 'i' ∨ ('i' : Char) = 'I') ∧
    (('n' : Char) = 'n' ∨ ('n' : Char) = 'N') ∧
    ([' '] ≠ ([] : List Char)) ∧ (∀ c ∈ [' '], pyIsSpace c = true) ∧
    ("Hindi".toList ≠ []) ∧ (∀ c ∈ "Hindi".toList, isAsciiLetter c = true) ∧
    isSepChar ':' = true ∧
    lookupLangName (String.mk ("Hindi".toList.map Char.toLower)) = some "hi" ∧
    detectLanguage (fun _ => none)
      (String.mk ('i' :: 'n' :: ([' '] ++ ("Hindi".toList ++ ':' ::
        " मैं फसल उगाना चाहता हूं".toList)))) = "hi" := by
  refine ⟨Or.inl rfl, Or.inl rfl, by decide, by decide, by decide, by decide,
    by decide, by decide, ?_⟩
  exact (c9_explicit_language_marker (fun _ => none) 'i' 'n' [' '] "Hindi".toList
    ':' " मैं फसल उगाना चाहता हूं".toList "hi" (Or.inl rfl) (Or.inl rfl)
    (by decide) (by decide) (by decide) (by decide) (by decide) (by decide)).1

/-! ### Vector store (`rag_service.py`, class `VectorDatabase`)

Python floats become exact rationals.  The cosine-similarity float of
`search` is represented exactly by the pair
`(dot product, squared guarded denominator)` (`simData`), whose real value
is `simVal`; this uses `max(√x, ε) = √(max(x, ε²))` for `x ≥ 0`, so
`simVal (simData a b)` equals the source
`dot(a,b) / (max(‖a‖, ε) * max(‖b‖, ε))` (`cosineSim`).  `np.argsort` is
modelled as a stable ascending sort over the index list; the source
introsort order on *exactly equal* similarity values is unspecified, the
stable order is the deterministic representative. -/

/-- Dot product of two rational vectors (`np.dot`; the model truncates at
the shorter list, numpy instead raises on mismatched shapes — the theorems
below only use matched lengths). -/
def dotQ : List ℚ → List ℚ → ℚ
  | [], _ => 0
  | _ :: _, [] => 0
  | x :: xs, y :: ys => x * y + dotQ xs ys

/-- Squared Euclidean norm (`np.linalg.norm(v) ** 2`). -/
def nsq (v : List ℚ) : ℚ := dotQ v v

/-- The zero-norm guard `1e-10` of `rag_service.py:44-45`. -/
def eps : ℚ := 1 / 10000000000

/-- The square of `eps`. -/
def epsSq : ℚ := eps * eps

/-- Exact representation of one similarity value: the dot product and the
squared guarded denominator `max(‖a‖², ε²) * max(‖b‖², ε²)`. -/
def simData (a b : List ℚ) : ℚ × ℚ :=
  (dotQ a b, max (nsq a) epsSq * max (nsq b) epsSq)

/-- Real value of a `simData` pair: `dot / √denomSq`. -/
noncomputable def simVal (p : ℚ × ℚ) : ℝ :=
  (p.1 : ℝ) / Real.sqrt (p.2 : ℝ)

/-- The similarity formula of `rag_service.py:39-47` literally:
`dot(a,b) / (max(‖a‖, 1e-10) * max(‖b‖, 1e-10))`. -/
noncomputable def cosineSim (a b : List ℚ) : ℝ :=
  (dotQ a b : ℝ) /
    (max (Real.sqrt ((nsq a : ℚ) : ℝ)) ((eps : ℚ) : ℝ) *
     max (Real.sqrt ((nsq b : ℚ) : ℝ)) ((eps : ℚ) : ℝ))

/-- Decidable comparison of two `simData` pairs, equivalent (for positive
denominators) to comparing their real `simVal`s; obtained by clearing the
square roots sign-case by sign-case. -/
def pairLe (p q : ℚ × ℚ) : Bool :=
  if p.1 < 0 then
    (if 0 ≤ q.1 then true else decide (q.1 ^ 2 * p.2 ≤ p.1 ^ 2 * q.2))
  else (if q.1 < 0 then false else decide (p.1 ^ 2 * q.2 ≤ q.1 ^ 2 * p.2))

/-- State of `VectorDatabase` (`rag_service.py:10-14`). -/
structure VectorDatabase (μ : Type) where
  vectors : List (List ℚ)
  metadata : List μ
  dimension : ℕ
deriving DecidableEq

/-- The default dimension of `VectorDatabase.__init__`. -/
def defaultDimension : ℕ := 384

/-- Translation of `VectorDatabase.__init__`: empty vector and metadata lists. -/
def mkDb (μ : Type) (dimension : ℕ) : VectorDatabase μ := ⟨[], [], dimension⟩

/-- Translation of `VectorDatabase.add_document` (`rag_service.py:16-27`): reject a
dimension mismatch with a `ValueError` and leave the state untouched,
otherwise append and return the pre-insertion record count. -/
def addDocument (db : VectorDatabase μ) (vector : List ℚ) (meta : μ) :
    Except String ℕ × VectorDatabase μ :=
  if vector.length ≠ db.dimension then
    (Except.error ("Vector dimension mismatch: expected " ++ toString db.dimension
        ++ ", got " ++ toString vector.length), db)
  else
    (Except.ok db.vectors.length,
      { db with vectors := db.vectors ++ [vector],
                metadata := db.metadata ++ [meta] })

/-- The flat record `{dimension, vectors, metadata}` of the save file
(spec §6); each field is optional because `load` reads the parsed JSON
with `data.get(key, default)`. -/
structure SavedData (μ : Type) where
  dimension : Option ℕ
  vectors : Option (List (List ℚ))
  metadata : Option (List μ)
deriving DecidableEq

/-- Translation of `VectorDatabase.save` (`rag_service.py:59-68`): serialize all three
fields. -/
def saveDb (db : VectorDatabase μ) : SavedData μ :=
  ⟨some db.dimension, some db.vectors, some db.metadata⟩

/-- Translation of `VectorDatabase.load` (`rag_service.py:70-78`): a missing file
(`os.path.exists` false) leaves the state untouched; otherwise each field
is replaced by `data.get(key, default)` — default `[]` for the lists and
the *current* dimension for `dimension`. -/
def loadDb (db : VectorDatabase μ) (file : Option (SavedData μ)) :
    VectorDatabase μ :=
  match file with
  | none => db
  | some d =>
      { dimension := d.dimension.getD db.dimension,
        vectors := d.vectors.getD [],
        metadata := d.metadata.getD [] }

/-- The store invariant of spec §3: every held vector has the configured
dimension. -/
def WF (db : VectorDatabase μ) : Prop :=
  ∀ v ∈ db.vectors, v.length = db.dimension

instance {μ : Type} (db : VectorDatabase μ) : Decidable (WF db) :=
  decidable_of_iff (∀ v ∈ db.vectors, v.length = db.dimension) Iff.rfl

/-- C2: `add_document` with a mismatched vector length fails with the
dimension-mismatch `ValueError` and leaves the store unchanged; with a
matching length it succeeds, appends the record, and returns the zero-based
id equal to the record count before the insertion. -/
theorem c2_add_document_contract {μ : Type} (db : VectorDatabase μ)
    (v : List ℚ) (m : μ) :
    (v.length ≠ db.dimension →
      addDocument db v m
        = (Except.error ("Vector dimension mismatch: expected "
            ++ toString db.dimension ++ ", got " ++ toString v.length), db)) ∧
    (v.length = db.dimension →
      addDocument db v m
        = (Except.ok db.vectors.length,
            { vectors := db.vectors ++ [v], metadata := db.metadata ++ [m],
              dimension := db.dimension })) := by
  constructor
  · intro h
    unfold addDocument
    rw [if_pos h]
  · intro h
    unfold addDocument
    rw [if_neg (fun hne => hne h)]

/-- C2 witness: a mismatch is rejected without mutation, a match appends
and returns id 0. -/
theorem c2_witness :
    (([1, 2, 3] : List ℚ).length ≠ (mkDb ℕ 2).dimension ∧
      addDocument (mkDb ℕ 2) [1, 2, 3] 5
        = (Except.error ("Vector dimension mismatch: expected "
            ++ toString (mkDb ℕ 2).dimension ++ ", got "
            ++ toString ([1, 2, 3] : List ℚ).length), mkDb ℕ 2)) ∧
    (([1, 2] : List ℚ).length = (mkDb ℕ 2).dimension ∧
      addDocument (mkDb ℕ 2) [1, 2] 5
        = (Except.ok (mkDb ℕ 2).vectors.length,
            { vectors := (mkDb ℕ 2).vectors ++ [[1, 2]],
              metadata := (mkDb ℕ 2).metadata ++ [5],
              dimension := (mkDb ℕ 2).dimension })) :=
  ⟨⟨by decide, (c2_add_document_contract (mkDb ℕ 2) [1, 2, 3] 5).1 (by decide)⟩,
   ⟨rfl, (c2_add_document_contract (mkDb ℕ 2) [1, 2] 5).2 rfl⟩⟩

/-- C5 (amended): `save` followed by `load` on a fresh store reproduces the
dimension, vectors and metadata exactly, and a load of a present record
whose `dimension` key exists replaces the in-memory state wholesale
(independent of the previous state); a load of a *missing* file, however,
leaves the store unchanged, and a present record missing the `dimension`
key falls back to the current dimension. -/
theorem c5_save_load_round_trip {μ : Type} (db db' : VectorDatabase μ)
    (d0 : ℕ) (sd : SavedData μ) (hsd : sd.dimension.isSome = true) :
    loadDb (mkDb μ d0) (some (saveDb db))
      = ⟨db.vectors, db.metadata, db.dimension⟩ ∧
    loadDb db (some sd) = loadDb db' (some sd) := by
  constructor
  · rfl
  · unfold loadDb
    rcases sd with ⟨sdim, svecs, smeta⟩
    cases sdim with
    | none => simp at hsd
    | some d => rfl

/-- C5 witness: round trip on a one-record store, and wholesale replacement
from two different prior states. -/
theorem c5_witness :
    ((⟨some 7, some [[1]], some [4]⟩ : SavedData ℕ).dimension.isSome = true) ∧
    (loadDb (mkDb ℕ 384) (some (saveDb (⟨[[1, 2]], [9], 2⟩ : VectorDatabase ℕ)))
      = ⟨[[1, 2]], [9], 2⟩ ∧
    loadDb (⟨[[5]], [1], 1⟩ : VectorDatabase ℕ) (some ⟨some 7, some [[1]], some [4]⟩)
      = loadDb (⟨[], [], 42⟩ : VectorDatabase ℕ) (some ⟨some 7, some [[1]], some [4]⟩)) :=
  ⟨by decide,
   c5_save_load_round_trip (⟨[[1, 2]], [9], 2⟩ : VectorDatabase ℕ)
     (⟨[], [], 42⟩ : VectorDatabase ℕ) 384 ⟨some 7, some [[1]], some [4]⟩ (by decide)⟩

/-- C5 counterexample: `load` of a missing file path (the
`os.path.exists` guard fails) keeps the entire previous state — vectors
included — so not every load replaces the in-memory state. -/
theorem c5_counterexample :
    loadDb (⟨[[1]], [5], 1⟩ : VectorDatabase ℕ) none
      = (⟨[[1]], [5], 1⟩ : VectorDatabase ℕ) ∧
    (loadDb (⟨[[1]], [5], 1⟩ : VectorDatabase ℕ) none).vectors = [[1]] ∧
    [[(1 : ℚ)]] ≠ ([] : List (List ℚ)) :=
  ⟨rfl, rfl, by decide⟩

/-- C6 (amended): the all-equal-lengths invariant holds at construction, is
preserved by a successful `add_document` of a matching vector, a
mismatching vector is rejected with the store unchanged, and a `load` of a
file saved from a well-formed store is well-formed; an arbitrary `load`,
however, is *not* validated and can break the invariant. -/
theorem c6_dimension_invariant {μ : Type} (d : ℕ) (db : VectorDatabase μ)
    (v : List ℚ) (m : μ) :
    WF (mkDb μ d) ∧
    (WF db → v.length = db.dimension → WF (addDocument db v m).2) ∧
    (v.length ≠ db.dimension →
      (addDocument db v m).1
        = Except.error ("Vector dimension mismatch: expected "
            ++ toString db.dimension ++ ", got " ++ toString v.length) ∧
      (addDocument db v m).2 = db) ∧
    (WF db → WF (loadDb (mkDb μ d) (some (saveDb db)))) := by
  refine ⟨?_, ?_, ?_, ?_⟩
  · intro w hw
    exact absurd hw (List.not_mem_nil w)
  · intro hwf hlen
    unfold addDocument
    rw [if_neg (fun hne => hne hlen)]
    intro w hw
    rcases List.mem_append.mp hw with h | h
    · exact hwf w h
    · rw [List.mem_singleton.mp h]
      exact hlen
  · intro h
    unfold addDocument
    rw [if_pos h]
    exact ⟨rfl, rfl⟩
  · intro hwf w hw
    exact hwf w hw

/-- C6 witness: construction, preserved add, rejected add, preserved
save/load round trip — at dimension 2. -/
theorem c6_witness :
    WF (mkDb ℕ 2) ∧
    (WF (⟨[[1, 2]], [0], 2⟩ : VectorDatabase ℕ) ∧
      ([3, 4] : List ℚ).length = 2 ∧
      WF (addDocument (⟨[[1, 2]], [0], 2⟩ : VectorDatabase ℕ) [3, 4] 1).2) ∧
    (([9] : List ℚ).length ≠ 2 ∧
      (addDocument (⟨[[1, 2]], [0], 2⟩ : VectorDatabase ℕ) [9] 1).2
        = (⟨[[1, 2]], [0], 2⟩ : VectorDatabase ℕ)) ∧
    WF (loadDb (mkDb ℕ 2) (some (saveDb (⟨[[1, 2]], [0], 2⟩ : VectorDatabase ℕ)))) :=
  ⟨(c6_dimension_invariant 2 (⟨[[1, 2]], [0], 2⟩ : VectorDatabase ℕ) [3, 4] 1).1,
   ⟨by decide, rfl,
    (c6_dimension_invariant 2 (⟨[[1, 2]], [0], 2⟩ : VectorDatabase ℕ) [3, 4] 1).2.1
      (by decide) rfl⟩,
   ⟨by decide,
    ((c6_dimension_invariant 2 (⟨[[1, 2]], [0], 2⟩ : VectorDatabase ℕ) [9] 1).2.2.1
      (by decide)).2⟩,
   (c6_dimension_invariant 2 (⟨[[1, 2]], [0], 2⟩ : VectorDatabase ℕ) [9] 1).2.2.2
     (by decide)⟩

/-- C6 counterexample: `load` performs no validation, so loading a present
record pairing dimension 3 with a length-1 vector breaks the invariant —
`load` does not preserve it. -/
theorem c6_counterexample :
    ¬ WF (loadDb (mkDb ℕ 3) (some ⟨some 3, some [[1]], some [0]⟩)) := by
  decide

/-- Python slice `l[-k:]` for `k ≥ 0`: the last `k` elements — except that
`l[-0:]` is `l[0:]`, the whole list. -/
def takeLastSlice (k : ℕ) (l : List α) : List α :=
  if k = 0 then l else l.drop (l.length - k)

/-- Translation of `VectorDatabase.search` (`rag_service.py:29-57`): empty store short
circuit, per-record similarity, `np.argsort` ascending (modelled stably),
slice `[-top_k:]`, reverse, and collect `(index, similarity, metadata)`
triples — the similarity carried as its exact `simData` representation. -/
def search [Inhabited μ] (db : VectorDatabase μ) (q : List ℚ) (k : ℕ) :
    List (ℕ × (ℚ × ℚ) × μ) :=
  if db.vectors = [] then []
  else
    (takeLastSlice k
      (List.insertionSort
        (fun i j =>
          pairLe ((db.vectors.map (fun v => simData v q)).getD i (0, 1))
                 ((db.vectors.map (fun v => simData v q)).getD j (0, 1)) = true)
        (List.range db.vectors.length))).reverse.map
      (fun i => (i, (db.vectors.map (fun v => simData v q)).getD i (0, 1),
                 db.metadata.getD i default))

theorem nsq_nonneg (v : List ℚ) : 0 ≤ nsq v := by
  induction v with
  | nil => exact le_refl 0
  | cons x xs ih =>
    have : nsq (x :: xs) = x * x + nsq xs := rfl
    rw [this]
    exact add_nonneg (mul_self_nonneg x) ih

theorem epsSq_pos : 0 < epsSq := by norm_num [epsSq, eps]

theorem simData_denom_pos (a b : List ℚ) : 0 < (simData a b).2 :=
  mul_pos (lt_of_lt_of_le epsSq_pos (le_max_right _ _))
    (lt_of_lt_of_le epsSq_pos (le_max_right _ _))

theorem getD_simData_pos (vectors : List (List ℚ)) (q : List ℚ) (i : ℕ) :
    0 < ((vectors.map (fun v => simData v q)).getD i (0, 1)).2 := by
  rw [List.getD_eq_getD_get? _ _ _]
  cases h : (vectors.map (fun v => simData v q)).get? i with
  | none => exact one_pos
  | some p =>
    have hp : p ∈ vectors.map (fun v => simData v q) := List.get?_mem h
    obtain ⟨a, _, rfl⟩ := List.mem_map.mp hp
    exact simData_denom_pos a q

theorem getD_simData_of_lt (vectors : List (List ℚ)) (q : List ℚ) (i : ℕ)
    (h : i < vectors.length) :
    (vectors.map (fun v => simData v q)).getD i (0, 1)
      = simData (vectors.getD i []) q := by
  rw [List.getD_eq_getD_get? _ _ _, List.getD_eq_getD_get? _ _ _,
    List.get?_map _ _ _]
  cases hh : vectors.get? i with
  | none => exact absurd (List.get?_eq_none.mp hh) (Nat.not_le.mpr h)
  | some v => rfl

theorem le_iff_sq_le_of_nonneg {x y : ℝ} (hx : 0 ≤ x) (hy : 0 ≤ y) :
    x ≤ y ↔ x ^ 2 ≤ y ^ 2 :=
  (pow_le_pow_iff_left hx hy two_ne_zero).symm

theorem le_iff_sq_ge_of_nonpos {x y : ℝ} (hx : x ≤ 0) (hy : y ≤ 0) :
    x ≤ y ↔ y ^ 2 ≤ x ^ 2 := by
  rw [show x ^ 2 = (-x) ^ 2 by ring, show y ^ 2 = (-y) ^ 2 by ring]
  rw [← le_iff_sq_le_of_nonneg (neg_nonneg.mpr hy) (neg_nonneg.mpr hx)]
  exact ⟨fun h => neg_le_neg h, fun h => le_of_neg_le_neg h⟩

theorem pairLe_iff (p q : ℚ × ℚ) (hp : 0 < p.2) (hq : 0 < q.2) :
    pairLe p q = true ↔ simVal p ≤ simVal q := by
  have hS : (0 : ℝ) < (p.2 : ℝ) := by exact_mod_cast hp
  have hT : (0 : ℝ) < (q.2 : ℝ) := by exact_mod_cast hq
  have hsS : 0 < Real.sqrt (p.2 : ℝ) := Real.sqrt_pos.mpr hS
  have hsT : 0 < Real.sqrt (q.2 : ℝ) := Real.sqrt_pos.mpr hT
  have hmain : (simVal p ≤ simVal q)
      ↔ (p.1 : ℝ) * Real.sqrt (q.2 : ℝ) ≤ (q.1 : ℝ) * Real.sqrt (p.2 : ℝ) := by
    unfold simVal
    exact div_le_div_iff hsS hsT
  rw [hmain]
  have hsqT : Real.sqrt (q.2 : ℝ) ^ 2 = (q.2 : ℝ) := Real.sq_sqrt hT.le
  have hsqS : Real.sqrt (p.2 : ℝ) ^ 2 = (p.2 : ℝ) := Real.sq_sqrt hS.le
  unfold pairLe
  split_ifs with h1 h2 h3
  · have hA : (p.1 : ℝ) < 0 := by exact_mod_cast h1
    have hB : (0 : ℝ) ≤ (q.1 : ℝ) := by exact_mod_cast h2
    have hle : (p.1 : ℝ) * Real.sqrt (q.2 : ℝ) ≤ (q.1 : ℝ) * Real.sqrt (p.2 : ℝ) :=
      le_trans (le_of_lt (mul_neg_of_neg_of_pos hA hsT)) (mul_nonneg hB hsS.le)
    simp [hle]
  · have hA : (p.1 : ℝ) < 0 := by exact_mod_cast h1
    have hB : (q.1 : ℝ) < 0 := by
      have := lt_of_not_ge h2
      exact_mod_cast this
    rw [decide_eq_true_eq]
    rw [le_iff_sq_ge_of_nonpos
      (le_of_lt (mul_neg_of_neg_of_pos hA hsT))
      (le_of_lt (mul_neg_of_neg_of_pos hB hsS))]
    rw [mul_pow, mul_pow, hsqT, hsqS]
    constructor
    · intro h
      have h' : ((q.1 ^ 2 * p.2 : ℚ) : ℝ) ≤ ((p.1 ^ 2 * q.2 : ℚ) : ℝ) := by
        exact_mod_cast h
      push_cast at h'
      linarith
    · intro h
      have h' : ((q.1 : ℝ)) ^ 2 * (p.2 : ℝ) ≤ ((p.1 : ℝ)) ^ 2 * (q.2 : ℝ) := by
        linarith
      exact_mod_cast h'
  · have hA : (0 : ℝ) ≤ (p.1 : ℝ) := by
      have := le_of_not_lt h1
      exact_mod_cast this
    have hB : (q.1 : ℝ) < 0 := by exact_mod_cast h3
    have hnle : ¬ ((p.1 : ℝ) * Real.sqrt (q.2 : ℝ) ≤ (q.1 : ℝ) * Real.sqrt (p.2 : ℝ)) := by
      have hlt : (q.1 : ℝ) * Real.sqrt (p.2 : ℝ) < 0 := mul_neg_of_neg_of_pos hB hsS
      have hge : 0 ≤ (p.1 : ℝ) * Real.sqrt (q.2 : ℝ) := mul_nonneg hA hsT.le
      exact not_le.mpr (lt_of_lt_of_le hlt hge)
    simp [hnle]
  · have hA : (0 : ℝ) ≤ (p.1 : ℝ) := by
      have := le_of_not_lt h1
      exact_mod_cast this
    have hB : (0 : ℝ) ≤ (q.1 : ℝ) := by
      have := le_of_not_lt h3
      exact_mod_cast this
    rw [decide_eq_true_eq]
    rw [le_iff_sq_le_of_nonneg (mul_nonneg hA hsT.le) (mul_nonneg hB hsS.le)]
    rw [mul_pow, mul_pow, hsqT, hsqS]
    constructor
    · intro h
      have h' : ((p.1 ^ 2 * q.2 : ℚ) : ℝ) ≤ ((q.1 ^ 2 * p.2 : ℚ) : ℝ) := by
        exact_mod_cast h
      push_cast at h'
      linarith
    · intro h
      have h' : ((p.1 : ℝ)) ^ 2 * (q.2 : ℝ) ≤ ((q.1 : ℝ)) ^ 2 * (p.2 : ℝ) := by
        linarith
      exact_mod_cast h'

theorem sorted_search_order (g : ℕ → ℚ × ℚ) (hg : ∀ i, 0 < (g i).2)
    (l : List ℕ) :
    List.Sorted (fun i j => pairLe (g i) (g j) = true)
      (List.insertionSort (fun i j => pairLe (g i) (g j) = true) l) := by
  have tot : ∀ a b, (pairLe (g a) (g b) = true) ∨ (pairLe (g b) (g a) = true) := by
    intro a b
    rcases le_total (simVal (g a)) (simVal (g b)) with h | h
    · exact Or.inl ((pairLe_iff _ _ (hg a) (hg b)).mpr h)
    · exact Or.inr ((pairLe_iff _ _ (hg b) (hg a)).mpr h)
  have htrans : ∀ a b c, pairLe (g a) (g b) = true → pairLe (g b) (g c) = true →
      pairLe (g a) (g c) = true := by
    intro a b c hab hbc
    exact (pairLe_iff _ _ (hg a) (hg c)).mpr
      (le_trans ((pairLe_iff _ _ (hg a) (hg b)).mp hab)
        ((pairLe_iff _ _ (hg b) (hg c)).mp hbc))
  exact @List.sorted_insertionSort ℕ _ _ ⟨tot⟩ ⟨htrans⟩ l

theorem eps_cast_nonneg : (0 : ℝ) ≤ ((eps : ℚ) : ℝ) := by
  norm_num [eps]

theorem sqrt_max_epsSq (x : ℚ) :
    Real.sqrt (max ((x : ℚ) : ℝ) ((epsSq : ℚ) : ℝ))
      = max (Real.sqrt ((x : ℚ) : ℝ)) ((eps : ℚ) : ℝ) := by
  have hepsR : ((epsSq : ℚ) : ℝ) = ((eps : ℚ) : ℝ) * ((eps : ℚ) : ℝ) := by
    show (((eps * eps : ℚ)) : ℝ) = _
    push_cast
    ring
  have hsqrt_eps : Real.sqrt ((epsSq : ℚ) : ℝ) = ((eps : ℚ) : ℝ) := by
    rw [hepsR, Real.sqrt_mul_self eps_cast_nonneg]
  rcases le_total ((x : ℚ) : ℝ) ((epsSq : ℚ) : ℝ) with h | h
  · rw [max_eq_right h, hsqrt_eps, max_eq_right]
    calc Real.sqrt ((x : ℚ) : ℝ) ≤ Real.sqrt ((epsSq : ℚ) : ℝ) := Real.sqrt_le_sqrt h
    _ = ((eps : ℚ) : ℝ) := hsqrt_eps
  · rw [max_eq_left h, max_eq_left]
    calc ((eps : ℚ) : ℝ) = Real.sqrt ((epsSq : ℚ) : ℝ) := hsqrt_eps.symm
    _ ≤ Real.sqrt ((x : ℚ) : ℝ) := Real.sqrt_le_sqrt h

theorem simVal_simData (a b : List ℚ) : simVal (simData a b) = cosineSim a b := by
  have h2 : (0 : ℝ) ≤ max ((nsq a : ℚ) : ℝ) ((epsSq : ℚ) : ℝ) :=
    le_trans (by norm_num [epsSq, eps]) (le_max_right _ _)
  show ((dotQ a b : ℚ) : ℝ)
      / Real.sqrt ((max (nsq a) epsSq * max (nsq b) epsSq : ℚ) : ℝ) = _
  rw [show ((max (nsq a) epsSq * max (nsq b) epsSq : ℚ) : ℝ)
      = max ((nsq a : ℚ) : ℝ) ((epsSq : ℚ) : ℝ)
        * max ((nsq b : ℚ) : ℝ) ((epsSq : ℚ) : ℝ) from by push_cast; ring]
  rw [Real.sqrt_mul h2]
  rw [sqrt_max_epsSq (nsq a), sqrt_max_epsSq (nsq b)]
  rfl

/-- C3 (amended): for every query of the dimension of the store and every
`k ≥ 1`, `search` returns the empty sequence on an empty store and
otherwise up to `k` `(id, similarity, metadata)` triples ordered by
descending cosine similarity `dot(a,b) / (max(‖a‖,1e-10) * max(‖b‖,1e-10))`;
for `k = 0` the claim fails (see the counterexample): the Python slice
`[-0:]` selects the whole array, so all records are returned. -/
theorem c3_search_spec {μ : Type} [Inhabited μ] (db : VectorDatabase μ)
    (q : List ℚ) (k : ℕ) (hk : 1 ≤ k) :
    (db.vectors = [] → search db q k = []) ∧
    (search db q k).length ≤ k ∧
    (search db q k).Pairwise (fun r s => simVal s.2.1 ≤ simVal r.2.1) ∧
    (∀ r ∈ search db q k,
      r.1 < db.vectors.length ∧
      r.2.1 = simData (db.vectors.getD r.1 []) q ∧
      simVal r.2.1 = cosineSim (db.vectors.getD r.1 []) q ∧
      r.2.2 = db.metadata.getD r.1 default) := by
  have hk0 : k ≠ 0 := by omega
  by_cases he : db.vectors = []
  · have hs : search db q k = [] := by
      unfold search
      rw [if_pos he]
    refine ⟨fun _ => hs, ?_, ?_, ?_⟩
    · rw [hs]
      simp
    · rw [hs]
      exact List.Pairwise.nil
    · intro r hr
      rw [hs] at hr
      exact absurd hr (List.not_mem_nil r)
  · have hsearch : search db q k = ((takeLastSlice k
        (List.insertionSort
          (fun i j =>
            pairLe ((db.vectors.map (fun v => simData v q)).getD i (0, 1))
                   ((db.vectors.map (fun v => simData v q)).getD j (0, 1)) = true)
          (List.range db.vectors.length))).reverse.map
        (fun i => (i, (db.vectors.map (fun v => simData v q)).getD i (0, 1),
                   db.metadata.getD i default))) := by
      unfold search
      rw [if_neg he]
    have hg : ∀ i, 0 < ((db.vectors.map (fun v => simData v q)).getD i (0, 1)).2 :=
      getD_simData_pos db.vectors q
    have hsorted := sorted_search_order
      (fun i => (db.vectors.map (fun v => simData v q)).getD i (0, 1)) hg
      (List.range db.vectors.length)
    have hslice : List.Sublist
        (takeLastSlice k
          (List.insertionSort
            (fun i j =>
              pairLe ((db.vectors.map (fun v => simData v q)).getD i (0, 1))
                     ((db.vectors.map (fun v => simData v q)).getD j (0, 1)) = true)
            (List.range db.vectors.length)))
        (List.insertionSort
          (fun i j =>
            pairLe ((db.vectors.map (fun v => simData v q)).getD i (0, 1))
                   ((db.vectors.map (fun v => simData v q)).getD j (0, 1)) = true)
          (List.range db.vectors.length)) := by
      unfold takeLastSlice
      rw [if_neg hk0]
      exact List.drop_sublist _ _
    refine ⟨fun h => absurd h he, ?_, ?_, ?_⟩
    · rw [hsearch, List.length_map, List.length_reverse]
      unfold takeLastSlice
      rw [if_neg hk0, List.length_drop]
      omega
    · rw [hsearch]
      apply List.pairwise_map.mpr
      apply List.pairwise_reverse.mpr
      have hPairSlice := List.Pairwise.sublist hslice hsorted
      exact hPairSlice.imp (fun hab => (pairLe_iff _ _ (hg _) (hg _)).mp hab)
    · intro r hr
      rw [hsearch] at hr
      obtain ⟨i, hi, rfl⟩ := List.mem_map.mp hr
      have hio : i ∈ takeLastSlice k
          (List.insertionSort
            (fun i j =>
              pairLe ((db.vectors.map (fun v => simData v q)).getD i (0, 1))
                     ((db.vectors.map (fun v => simData v q)).getD j (0, 1)) = true)
            (List.range db.vectors.length)) := List.mem_reverse.mp hi
      have hio2 : i ∈ List.insertionSort
          (fun i j =>
            pairLe ((db.vectors.map (fun v => simData v q)).getD i (0, 1))
                   ((db.vectors.map (fun v => simData v q)).getD j (0, 1)) = true)
          (List.range db.vectors.length) := by
        unfold takeLastSlice at hio
        rw [if_neg hk0] at hio
        exact List.mem_of_mem_drop hio
      have hilt : i < db.vectors.length :=
        List.mem_range.mp ((List.mem_insertionSort _).mp hio2)
      refine ⟨hilt, ?_, ?_, rfl⟩
      · exact getD_simData_of_lt db.vectors q i hilt
      · show simVal ((db.vectors.map (fun v => simData v q)).getD i (0, 1)) = _
        rw [getD_simData_of_lt db.vectors q i hilt, simVal_simData]

/-- C3 witness: the full search contract applied at a two-record store with
`k = 1`. -/
theorem c3_witness :
    (1 : ℕ) ≤ 1 ∧
    (((⟨[[1], [2]], [0, 1], 1⟩ : VectorDatabase ℕ).vectors = [] →
        search (⟨[[1], [2]], [0, 1], 1⟩ : VectorDatabase ℕ) [1] 1 = []) ∧
      (search (⟨[[1], [2]], [0, 1], 1⟩ : VectorDatabase ℕ) [1] 1).length ≤ 1 ∧
      (search (⟨[[1], [2]], [0, 1], 1⟩ : VectorDatabase ℕ) [1] 1).Pairwise
        (fun r s => simVal s.2.1 ≤ simVal r.2.1) ∧
      (∀ r ∈ search (⟨[[1], [2]], [0, 1], 1⟩ : VectorDatabase ℕ) [1] 1,
        r.1 < (⟨[[1], [2]], [0, 1], 1⟩ : VectorDatabase ℕ).vectors.length ∧
        r.2.1 = simData
          ((⟨[[1], [2]], [0, 1], 1⟩ : VectorDatabase ℕ).vectors.getD r.1 []) [1] ∧
        simVal r.2.1 = cosineSim
          ((⟨[[1], [2]], [0, 1], 1⟩ : VectorDatabase ℕ).vectors.getD r.1 []) [1] ∧
        r.2.2 = (⟨[[1], [2]], [0, 1], 1⟩ : VectorDatabase ℕ).metadata.getD r.1
          default)) :=
  ⟨by decide, c3_search_spec (⟨[[1], [2]], [0, 1], 1⟩ : VectorDatabase ℕ) [1] 1
    (by decide)⟩

/-- C3 counterexample: with `k = 0` and a two-record store, the Python
slice `similarities.argsort()[-0:]` is the whole array, so `search` returns
2 triples — not "up to 0" as the unrestricted quantification of the claim over
`k` demands. -/
theorem c3_counterexample :
    (search (⟨[[1], [2]], [0, 1], 1⟩ : VectorDatabase ℕ) [1] 0).length = 2 := by
  unfold search
  rw [if_neg (by decide)]
  rw [List.length_map, List.length_reverse]
  unfold takeLastSlice
  rw [if_pos rfl, List.length_insertionSort, List.length_range]
  rfl

theorem dotQ_sq_le : ∀ (a b : List ℚ), (dotQ a b) ^ 2 ≤ nsq a * nsq b := by
  intro a
  induction a with
  | nil =>
    intro b
    show (dotQ [] b) ^ 2 ≤ nsq [] * nsq b
    simp [dotQ, nsq]
  | cons x xs ih =>
    intro b
    cases b with
    | nil =>
      show (dotQ (x :: xs) []) ^ 2 ≤ nsq (x :: xs) * nsq []
      simp [dotQ, nsq]
    | cons y ys =>
      have IH := ih ys
      have hA : 0 ≤ nsq xs := nsq_nonneg xs
      have hB : 0 ≤ nsq ys := nsq_nonneg ys
      show (x * y + dotQ xs ys) ^ 2 ≤ (x * x + nsq xs) * (y * y + nsq ys)
      have hslack : 0 ≤ nsq xs * nsq ys - dotQ xs ys ^ 2 := by linarith
      rcases eq_or_lt_of_le hA with hA0 | hApos
      · have hd2 : dotQ xs ys ^ 2 ≤ 0 := by nlinarith
        have hd : dotQ xs ys = 0 := by nlinarith [sq_nonneg (dotQ xs ys)]
        rw [hd]
        nlinarith [mul_nonneg (mul_self_nonneg x) hB, sq_nonneg (x * y)]
      · nlinarith [sq_nonneg (x * dotQ xs ys - y * nsq xs),
          mul_nonneg (add_nonneg (mul_self_nonneg x) hA) hslack, hApos]

theorem nsq_pos_of_eps {v : List ℚ} (hv : epsSq ≤ nsq v) : 0 < nsq v :=
  lt_of_lt_of_le epsSq_pos hv

theorem pairLe_self_max (w v : List ℚ) (hv : epsSq ≤ nsq v) :
    pairLe (simData w v) (simData v v) = true := by
  have hv0 : 0 ≤ nsq v := nsq_nonneg v
  have hnn : (0 : ℚ) ≤ dotQ v v := hv0
  unfold pairLe
  split_ifs with h1 h2 h3
  · rfl
  · exact absurd hnn h2
  · exact absurd hnn (not_le.mpr h3)
  · rw [decide_eq_true_eq]
    show (dotQ w v) ^ 2 * (max (nsq v) epsSq * max (nsq v) epsSq)
        ≤ (dotQ v v) ^ 2 * (max (nsq w) epsSq * max (nsq v) epsSq)
    rw [max_eq_left hv]
    have hCS := dotQ_sq_le w v
    have hw : nsq w ≤ max (nsq w) epsSq := le_max_left _ _
    have hkey : (dotQ w v) ^ 2 ≤ max (nsq w) epsSq * nsq v := by nlinarith
    show (dotQ w v) ^ 2 * (nsq v * nsq v)
        ≤ (nsq v) ^ 2 * (max (nsq w) epsSq * nsq v)
    nlinarith [mul_le_mul_of_nonneg_right hkey (mul_nonneg hv0 hv0)]

theorem getLast?_orderedInsert {α : Type} (r : α → α → Prop) [DecidableRel r]
    (a : α) : ∀ (l : List α) (b : α), b ∈ l → r a b →
    (List.orderedInsert r a l).getLast? = l.getLast?
  | [], b, hb, _ => absurd hb (List.not_mem_nil b)
  | c :: t, b, hb, hr => by
    by_cases hac : r a c
    · rw [List.orderedInsert_of_le r _ hac, List.getLast?_cons_cons]
    · have horder : List.orderedInsert r a (c :: t)
          = c :: List.orderedInsert r a t := by
        simp [List.orderedInsert, hac]
      have hbt : b ∈ t := by
        rcases List.mem_cons.mp hb with rfl | h
        · exact absurd hr hac
        · exact h
      have ht : t ≠ [] := List.ne_nil_of_mem hbt
      obtain ⟨c2, t2, ht2⟩ : ∃ c2 t2, t = c2 :: t2 := by
        cases t with
        | nil => exact absurd rfl ht
        | cons c2 t2 => exact ⟨c2, t2, rfl⟩
      rw [horder]
      cases hOI : List.orderedInsert r a t with
      | nil =>
        have := List.orderedInsert_length r t a
        rw [hOI] at this
        simp at this
      | cons o os =>
        rw [List.getLast?_cons_cons, ← hOI,
          getLast?_orderedInsert r a t b hbt hr, ht2,
          List.getLast?_cons_cons]

theorem getLast?_insertionSort_concat {α : Type} (r : α → α → Prop)
    [DecidableRel r] :
    ∀ (l : List α) (m : α), (∀ a ∈ l, r a m) →
    (List.insertionSort r (l ++ [m])).getLast? = some m
  | [], m, _ => rfl
  | a :: t, m, h => by
    rw [List.cons_append]
    show (List.orderedInsert r a (List.insertionSort r (t ++ [m]))).getLast?
      = some m
    have IH := getLast?_insertionSort_concat r t m
      (fun b hb => h b (List.mem_cons_of_mem a hb))
    have hm : m ∈ List.insertionSort r (t ++ [m]) :=
      (List.mem_insertionSort r).mpr (by simp)
    rw [getLast?_orderedInsert r a _ m hm (h a (List.mem_cons_self a t))]
    exact IH

theorem drop_length_sub_one {α : Type} :
    ∀ (l : List α), l.drop (l.length - 1) = l.getLast?.toList
  | [] => rfl
  | [_] => rfl
  | a :: b :: t => by
    have h : (a :: b :: t).length - 1 = ((b :: t).length - 1) + 1 := by
      simp only [List.length_cons]
      omega
    rw [h, List.drop_succ_cons, drop_length_sub_one (b :: t),
      List.getLast?_cons_cons]

theorem search_concat_self {μ : Type} [Inhabited μ] (vecs : List (List ℚ))
    (md : List μ) (d : ℕ) (v : List ℚ) (m : μ)
    (hmd : md.length = vecs.length) (hv : epsSq ≤ nsq v) :
    search (⟨vecs ++ [v], md ++ [m], d⟩ : VectorDatabase μ) v 1
      = [(vecs.length, simData v v, m)] := by
  unfold search
  dsimp only
  rw [if_neg (by simp)]
  have hglen : (vecs ++ [v]).length = vecs.length + 1 := by simp
  have hvn : (vecs ++ [v]).getD vecs.length [] = v := by
    rw [List.getD_eq_getD_get? _ _ _, List.get?_concat_length]
    rfl
  have hgn : ((vecs ++ [v]).map (fun w => simData w v)).getD vecs.length (0, 1)
      = simData v v := by
    rw [getD_simData_of_lt _ _ _ (by omega),
      hvn]
  have hrel : ∀ i ∈ List.range vecs.length,
      pairLe (((vecs ++ [v]).map (fun w => simData w v)).getD i (0, 1))
             (((vecs ++ [v]).map (fun w => simData w v)).getD vecs.length (0, 1))
        = true := by
    intro i hi
    rw [hgn]
    have hilt : i < (vecs ++ [v]).length := by
      rw [hglen]
      have := List.mem_range.mp hi
      omega
    rw [getD_simData_of_lt _ _ _ hilt]
    exact pairLe_self_max _ v hv
  have hrange : List.range ((vecs ++ [v]).length)
      = List.range vecs.length ++ [vecs.length] := by
    rw [hglen, List.range_succ]
  have hlast : (List.insertionSort
      (fun i j =>
        pairLe (((vecs ++ [v]).map (fun w => simData w v)).getD i (0, 1))
               (((vecs ++ [v]).map (fun w => simData w v)).getD j (0, 1)) = true)
      (List.range ((vecs ++ [v]).length))).getLast? = some vecs.length := by
    rw [hrange]
    exact getLast?_insertionSort_concat _ (List.range vecs.length) vecs.length hrel
  have hslice : takeLastSlice 1
      (List.insertionSort
        (fun i j =>
          pairLe (((vecs ++ [v]).map (fun w => simData w v)).getD i (0, 1))
                 (((vecs ++ [v]).map (fun w => simData w v)).getD j (0, 1)) = true)
        (List.range ((vecs ++ [v]).length))) = [vecs.length] := by
    unfold takeLastSlice
    rw [if_neg one_ne_zero, drop_length_sub_one, hlast]
    rfl
  rw [hslice]
  have hmdn : (md ++ [m]).getD vecs.length default = m := by
    rw [List.getD_eq_getD_get? _ _ _, ← hmd, List.get?_concat_length]
    rfl
  show [(vecs.length,
      ((vecs ++ [v]).map (fun w => simData w v)).getD vecs.length (0, 1),
      (md ++ [m]).getD vecs.length default)]
    = [(vecs.length, simData v v, m)]
  rw [hgn, hmdn]

theorem cosineSim_self_eq_one {v : List ℚ} (hv : epsSq ≤ nsq v) :
    cosineSim v v = 1 := by
  have hnn : (0 : ℝ) ≤ ((nsq v : ℚ) : ℝ) := by
    exact_mod_cast nsq_nonneg v
  have hpos : (0 : ℝ) < ((nsq v : ℚ) : ℝ) := by
    exact_mod_cast nsq_pos_of_eps hv
  have heps_eq : ((eps : ℚ) : ℝ) = Real.sqrt ((epsSq : ℚ) : ℝ) := by
    rw [show ((epsSq : ℚ) : ℝ) = ((eps : ℚ) : ℝ) * ((eps : ℚ) : ℝ) from by
        show (((eps * eps : ℚ)) : ℝ) = _
        push_cast
        ring,
      Real.sqrt_mul_self eps_cast_nonneg]
  have hmax : max (Real.sqrt ((nsq v : ℚ) : ℝ)) ((eps : ℚ) : ℝ)
      = Real.sqrt ((nsq v : ℚ) : ℝ) := by
    apply max_eq_left
    rw [heps_eq]
    apply Real.sqrt_le_sqrt
    exact_mod_cast hv
  show ((dotQ v v : ℚ) : ℝ)
      / (max (Real.sqrt ((nsq v : ℚ) : ℝ)) ((eps : ℚ) : ℝ)
        * max (Real.sqrt ((nsq v : ℚ) : ℝ)) ((eps : ℚ) : ℝ)) = 1
  rw [hmax, Real.mul_self_sqrt hnn]
  exact div_self (ne_of_gt hpos)

/-- C4 (amended): for every vector `v` of the dimension of the store whose
Euclidean norm is at least the guard `1e-10` (`‖v‖² ≥ 1e-20`), and aligned
metadata, `add_document` succeeds returning the pre-insertion count, and a
subsequent `search` with query `v` and `k = 1` returns the new record first
with cosine similarity exactly 1 in exact arithmetic; vectors below the
guard (such as the zero vector, see the counterexample) get similarity
below 1 instead. -/
theorem c4_add_search_round_trip {μ : Type} [Inhabited μ]
    (db : VectorDatabase μ) (v : List ℚ) (m : μ)
    (hdim : v.length = db.dimension)
    (hmd : db.metadata.length = db.vectors.length) (hv : epsSq ≤ nsq v) :
    (addDocument db v m).1 = Except.ok db.vectors.length ∧
    search (addDocument db v m).2 v 1
      = [(db.vectors.length, simData v v, m)] ∧
    simVal (simData v v) = 1 ∧
    cosineSim v v = 1 := by
  have hadd : addDocument db v m
      = (Except.ok db.vectors.length,
          ⟨db.vectors ++ [v], db.metadata ++ [m], db.dimension⟩) := by
    unfold addDocument
    rw [if_neg (fun hne => hne hdim)]
  have hcos := cosineSim_self_eq_one hv
  refine ⟨by rw [hadd], ?_, ?_, hcos⟩
  · rw [hadd]
    exact search_concat_self db.vectors db.metadata db.dimension v m hmd hv
  · rw [simVal_simData]
    exact hcos

/-- C4 witness: adding `[1]` to a fresh one-dimensional store and searching
for it returns the new record first with similarity 1. -/
theorem c4_witness :
    (([1] : List ℚ).length = (mkDb ℕ 1).dimension ∧
      (mkDb ℕ 1).metadata.length = (mkDb ℕ 1).vectors.length ∧
      epsSq ≤ nsq [1]) ∧
    ((addDocument (mkDb ℕ 1) [1] 7).1 = Except.ok (mkDb ℕ 1).vectors.length ∧
      search (addDocument (mkDb ℕ 1) [1] 7).2 [1] 1
        = [((mkDb ℕ 1).vectors.length, simData [1] [1], 7)] ∧
      simVal (simData [1] [1]) = 1 ∧
      cosineSim [1] [1] = 1) := by
  have h1 : ([1] : List ℚ).length = (mkDb ℕ 1).dimension := rfl
  have h2 : (mkDb ℕ 1).metadata.length = (mkDb ℕ 1).vectors.length := rfl
  have h3 : epsSq ≤ nsq [1] := by
    show epsSq ≤ dotQ [1] [1]
    norm_num [dotQ, epsSq, eps]
  exact ⟨⟨h1, h2, h3⟩, c4_add_search_round_trip (mkDb ℕ 1) [1] 7 h1 h2 h3⟩

/-- C4 counterexample: the zero vector has a matching length, `add`
succeeds, but the subsequent self-search returns the record with cosine
similarity 0, not approximately 1 — the ε-guard turns the denominator into
`1e-20` while the dot product is 0. -/
theorem c4_counterexample :
    (addDocument (mkDb ℕ 1) [0] 7).1 = Except.ok 0 ∧
    search (addDocument (mkDb ℕ 1) [0] 7).2 [0] 1
      = [(0, (0, epsSq * epsSq), 7)] ∧
    cosineSim [0] [0] = 0 ∧
    cosineSim [0] [0] ≠ 1 := by
  have h0 : dotQ [0] [0] = 0 := by
    show (0 : ℚ) * 0 + dotQ [] [] = 0
    show (0 : ℚ) * 0 + 0 = 0
    norm_num
  have hsim : simData [0] [0] = (0, epsSq * epsSq) := by
    unfold simData
    rw [h0]
    have hn : nsq [0] = 0 := h0
    rw [hn, max_eq_right (le_of_lt epsSq_pos)]
  have hcos : cosineSim [0] [0] = 0 := by
    show ((dotQ [0] [0] : ℚ) : ℝ) / _ = 0
    rw [h0]
    norm_num
  refine ⟨rfl, ?_, hcos, by rw [hcos]; norm_num⟩
  have hs : search (addDocument (mkDb ℕ 1) [0] 7).2 [0] 1
      = [(0, simData [0] [0], 7)] := rfl
  rw [hs, hsim]

end CropConnect
